import Mathlib

/-!
# sfmlcmake: the entry point `main` and the `App` window owner

A verification development over `App/src/main.cpp` and `App/include/App.h`.

* `Double` is a value-level model of IEEE-754 binary64 (the type of
  `App::DEFAULT_RESX` and `App::DEFAULT_RESY`): multiplication rounds to
  nearest, ties to even; the conversion to `unsigned int` discards the
  fractional part and is undefined when the result is not representable.
* `main` is the sequence of calls the main thread performs, in program order.
  The bodies of `App::run` and `App::display` are not part of the two files,
  so whether they return is an input of the model (`Env`).
-/

namespace Sfmlcmake

/-! ## binary64 arithmetic used by `main` -/

/-- A binary64 datum. `finite neg m e` denotes `(-1)^neg * m * 2^e`. -/
inductive Double where
  | finite (neg : Bool) (m : Nat) (e : Int)
  | inf (neg : Bool)
  | nan
  deriving DecidableEq, Repr

namespace Double

/-- Number of binary digits of `n` (`0` for `0`). -/
def bitLength (n : Nat) : Nat :=
  go n n
where
  /-- Digit count with an explicit recursion bound. -/
  go : Nat → Nat → Nat
    | 0, _ => 0
    | fuel + 1, n => if n = 0 then 0 else go fuel (n / 2) + 1

/-- The data that are binary64 values: at most 53 significant bits, least
exponent `-1074`, magnitude below `2^1024`. -/
def WellFormed : Double → Prop
  | finite _ m e => m < 2 ^ 53 ∧ -1074 ≤ e ∧ (bitLength m : Int) + e ≤ 1024
  | inf _ => True
  | nan => True

instance : DecidablePred WellFormed := fun d => by
  cases d <;> unfold WellFormed <;> infer_instance

/-- The quotient `M / 2^s` rounded to nearest, ties to even. -/
def roundShift (M s : Nat) : Nat :=
  let q := M / 2 ^ s
  let r := M % 2 ^ s
  if 2 * r < 2 ^ s then q
  else if 2 ^ s < 2 * r then q + 1
  else if q % 2 = 0 then q else q + 1

/-- Rounding of the exact magnitude `M * 2^E` to binary64, with the sign `neg`. -/
def round (neg : Bool) (M : Nat) (E : Int) : Double :=
  let s := max (bitLength M - 53) (-1074 - E).toNat
  let m := roundShift M s
  let e := E + s
  if 1024 < (bitLength m : Int) + e then inf neg
  else if m = 2 ^ 53 then finite neg (2 ^ 52) (e + 1) else finite neg m e

/-- The conversion `int → double` of the usual arithmetic conversions; exact,
an `int` has at most 32 bits. -/
def ofInt (i : Int) : Double :=
  finite (decide (i < 0)) i.natAbs 0

/-- The product of two doubles, `operator*`. -/
def mul : Double → Double → Double
  | nan, _ => nan
  | _, nan => nan
  | inf a, inf b => inf (xor a b)
  | inf a, finite b m _ => if m = 0 then nan else inf (xor a b)
  | finite a m _, inf b => if m = 0 then nan else inf (xor a b)
  | finite a m₁ e₁, finite b m₂ e₂ => round (xor a b) (m₁ * m₂) (e₁ + e₂)

/-- The conversion `double → unsigned int`: the fractional part is discarded;
`none` is the undefined case (the truncated value is not an `unsigned int`). -/
def toUnsigned : Double → Option Nat
  | finite neg m e =>
    let t := if 0 ≤ e then m * 2 ^ e.toNat else m / 2 ^ (-e).toNat
    if neg = true ∧ t ≠ 0 then none
    else if t < 2 ^ 32 then some t else none
  | inf _ => none
  | nan => none

/-- The rational number a finite double denotes. -/
def toRat : Double → Option ℚ
  | finite neg m e => some ((if neg then -1 else 1) * (m : ℚ) * (2 : ℚ) ^ e)
  | inf _ => none
  | nan => none

/-- The double is `+0`, `-0` or a positive finite number. -/
def IsNonneg : Double → Prop
  | finite neg m _ => neg = false ∨ m = 0
  | inf _ => False
  | nan => False

/-- The double nearest to one third, `0x3FD5555555555555`. -/
def third : Double := finite false 6004799503160661 (-54)

/-- The double `1.0`. -/
def one : Double := finite false 1 0

end Double

/-! ## `App.h` -/

/-- The four `static const` members declared in `App.h`; their values are
defined outside the two files and are parameters here. -/
structure Constants where
  DEFAULT_WIDTH : Int
  DEFAULT_HEIGHT : Int
  DEFAULT_RESX : Double
  DEFAULT_RESY : Double

/-- The double `App::DEFAULT_WIDTH*App::DEFAULT_RESX` of `main.cpp` line 17. -/
def widthProduct (k : Constants) : Double :=
  Double.mul (Double.ofInt k.DEFAULT_WIDTH) k.DEFAULT_RESX

/-- The double `App::DEFAULT_HEIGHT*App::DEFAULT_RESY` of `main.cpp` line 18. -/
def heightProduct (k : Constants) : Double :=
  Double.mul (Double.ofInt k.DEFAULT_HEIGHT) k.DEFAULT_RESY

/-- The local `const unsigned int width` of `main`. -/
def width (k : Constants) : Option Nat :=
  (widthProduct k).toUnsigned

/-- The local `const unsigned int height` of `main`. -/
def height (k : Constants) : Option Nat :=
  (heightProduct k).toUnsigned

/-- An object address; `none : Option Addr` is `nullptr`. -/
abbrev Addr := Nat

/-- The class `App` of `App.h`: its one data member, with the default member
initialiser `= nullptr`. -/
structure App where
  _window : Option Addr := none
  deriving DecidableEq, Repr

/-- What a loop of `App` does with the stored surface reference. -/
inductive Access where
  /-- The loop operates on the surface stored at this address. -/
  | surface (w : Addr)
  /-- The call is rejected with a precondition error. -/
  | preconditionError
  /-- The absent surface is dereferenced. -/
  | undefinedBehaviour
  deriving DecidableEq, Repr

namespace App

/-- Modelled from the spec: the constructor `App::App()` is declared in `App.h`
and defined outside the two files; a constructed `App` holds the initial null
reference of the default member initialiser. -/
def construct : Sfmlcmake.App := {}

/-- Modelled from the spec: `App::setWindow` is declared in `App.h` and defined
outside the two files; the spec has it store a non-owning reference to the
display surface, with no precondition checking. -/
def setWindow (self : Sfmlcmake.App) (p : Option Addr) : Sfmlcmake.App :=
  { self with _window := p }

/-- Modelled from the spec: `App::run` is declared in `App.h` and defined outside
the two files; the spec has the control loop work on the stored surface
reference, with no precondition checking: running it before the reference is
set is undefined behaviour in the source. -/
def run (self : Sfmlcmake.App) : Access :=
  match self._window with
  | none => Access.undefinedBehaviour
  | some w => Access.surface w

/-- Modelled from the spec: `App::display` is declared in `App.h` and defined
outside the two files; the spec has the display loop work on the same stored
surface reference, with no precondition checking: running it before the
reference is set is undefined behaviour in the source. -/
def display (self : Sfmlcmake.App) : Access :=
  match self._window with
  | none => Access.undefinedBehaviour
  | some w => Access.surface w

end App

/-! ## `main.cpp` -/

/-- The two outcomes of `#ifdef __linux__`. -/
inductive Platform where
  | linux
  | other
  deriving DecidableEq, Repr

/-- The predefined colours of `sf::Color`. -/
inductive Color where
  | Black | White | Red | Green | Blue | Yellow | Magenta | Cyan | Transparent
  deriving DecidableEq, Repr

/-- The enumerators of `sf::Style` that matter to `main`. Their values come
from the SFML headers and are parameters here. -/
structure Style where
  Titlebar : Nat
  Resize : Nat
  Close : Nat
  Fullscreen : Nat

/-- The values SFML 2 gives the enumerators: `1 << 0`, `1 << 1`, `1 << 2`,
`1 << 3`. -/
def Style.sfml : Style := ⟨1, 2, 4, 8⟩

/-- The four flags are single bits at pairwise distinct positions. -/
def Style.SingleBits (sf : Style) : Prop :=
  ∃ t r c f : Nat, sf.Titlebar = 2 ^ t ∧ sf.Resize = 2 ^ r ∧ sf.Close = 2 ^ c ∧
    sf.Fullscreen = 2 ^ f ∧ t ≠ r ∧ t ≠ c ∧ t ≠ f ∧ r ≠ c ∧ r ≠ f ∧ c ≠ f

/-- The local variables of `main` that name objects. -/
inductive Local where
  | settings
  | window
  | app
  | rendering_thread
  deriving DecidableEq, Repr

/-- The address of a local of `main` (`&window`, `&app`); distinct locals are
distinct objects. -/
def Local.addr : Local → Addr
  | .settings => 0
  | .window => 1
  | .app => 2
  | .rendering_thread => 3

/-- The member functions of `App` that can be handed to a thread. -/
inductive Member where
  | run
  | display
  deriving DecidableEq, Repr

/-- One call made by the main thread in `main`, with its arguments. -/
inductive Event where
  /-- The call `XInitThreads()`. -/
  | XInitThreads
  /-- The declaration `sf::ContextSettings settings`. -/
  | ContextSettings (self : Local)
  /-- The assignment `settings.antialiasingLevel = n`. -/
  | antialiasingLevel (self : Local) (n : Nat)
  /-- The declaration `sf::RenderWindow window(sf::VideoMode(width, height), title, style,
  settings)`; `opened` records whether SFML could create the surface (what
  `isOpen()` would report afterwards). -/
  | RenderWindow (self : Local) (width height : Nat) (title : String) (style : Nat)
      (contextSettings : Local) (opened : Bool)
  /-- The call `self.clear(c)`. -/
  | clear (self : Local) (c : Color)
  /-- The call `self.setFramerateLimit(n)`. -/
  | setFramerateLimit (self : Local) (n : Nat)
  /-- The call `self.setActive(b)`. -/
  | setActive (self : Local) (b : Bool)
  /-- The declaration `App app`. -/
  | App (self : Local)
  /-- The call `self.setWindow(p)`. -/
  | setWindow (self : Local) (p : Option Addr)
  /-- The declaration `std::thread self(f, arg)`: a new thread starts and calls the
  member function `f` on the object at `arg`. -/
  | thread (self : Local) (f : Member) (arg : Addr)
  /-- The call `self.run()` is entered. -/
  | run (self : Local)
  /-- The call `self.run()` has returned. -/
  | runReturned (self : Local)
  /-- The call `self.join()` is entered. -/
  | join (self : Local)
  /-- The call `self.join()` has returned. -/
  | joined (self : Local)
  /-- The statement `return code`. -/
  | ret (code : Int)
  deriving DecidableEq, Repr

/-- What `main` cannot decide: whether SFML could create the surface, and
whether the two loops of `App`, defined outside the two files, return. -/
structure Env where
  windowCreated : Bool
  runReturns : Bool
  displayReturns : Bool
  deriving DecidableEq, Repr

/-- One execution of `main`: the calls of the main thread in program order, and
the exit code when `main` returns. -/
structure Execution where
  trace : List Event
  exit : Option Int
  deriving DecidableEq, Repr

/-- The title literal of `main.cpp` line 21. -/
def TITLE : String := "SFML & CMAKE"

/-- The function `main` of `main.cpp`, statement by statement. The result is
`none` when a conversion to `unsigned int` is undefined. `join` returns when
the thread function `App::display` has returned. -/
def main (pf : Platform) (k : Constants) (sf : Style) (env : Env) : Option Execution := do
  let t : List Event := []
  let t := if pf = Platform.linux then t ++ [Event.XInitThreads] else t
  let t := t ++ [Event.ContextSettings Local.settings]
  let t := t ++ [Event.antialiasingLevel Local.settings 10]
  let width ← (Double.mul (Double.ofInt k.DEFAULT_WIDTH) k.DEFAULT_RESX).toUnsigned
  let height ← (Double.mul (Double.ofInt k.DEFAULT_HEIGHT) k.DEFAULT_RESY).toUnsigned
  let t := t ++ [Event.RenderWindow Local.window width height TITLE
    (sf.Titlebar ||| sf.Close) Local.settings env.windowCreated]
  let t := t ++ [Event.clear Local.window Color.Cyan]
  let t := t ++ [Event.setFramerateLimit Local.window 120]
  let t := t ++ [Event.setActive Local.window false]
  let t := t ++ [Event.App Local.app]
  let t := t ++ [Event.setWindow Local.app (some Local.window.addr)]
  let t := t ++ [Event.thread Local.rendering_thread Member.display Local.app.addr]
  let t := t ++ [Event.run Local.app]
  if env.runReturns then
    let t := t ++ [Event.runReturned Local.app]
    let t := t ++ [Event.join Local.rendering_thread]
    if env.displayReturns then
      let t := t ++ [Event.joined Local.rendering_thread]
      let t := t ++ [Event.ret 0]
      pure ⟨t, some 0⟩
    else
      pure ⟨t, none⟩
  else
    pure ⟨t, none⟩

/-! ## Reading a trace -/

namespace Event

/-- The event is the call `XInitThreads()`. -/
def isXInitThreads : Event → Bool
  | XInitThreads => true
  | _ => false

/-- The event constructs a graphics object: the context settings or the window. -/
def isGraphicsObject : Event → Bool
  | ContextSettings _ => true
  | RenderWindow _ _ _ _ _ _ _ => true
  | _ => false

/-- The event constructs a window. -/
def isRenderWindow : Event → Bool
  | RenderWindow _ _ _ _ _ _ _ => true
  | _ => false

/-- The event is a call of `clear`. -/
def isClear : Event → Bool
  | clear _ _ => true
  | _ => false

/-- The event is a call of `setFramerateLimit`. -/
def isSetFramerateLimit : Event → Bool
  | setFramerateLimit _ _ => true
  | _ => false

/-- The event is a call of `setActive`. -/
def isSetActive : Event → Bool
  | setActive _ _ => true
  | _ => false

/-- The event is a call of `setWindow`. -/
def isSetWindow : Event → Bool
  | setWindow _ _ => true
  | _ => false

/-- The event starts a thread. -/
def isThread : Event → Bool
  | thread _ _ _ => true
  | _ => false

/-- The event enters `run`. -/
def isRun : Event → Bool
  | run _ => true
  | _ => false

/-- The event is the return of `run`. -/
def isRunReturned : Event → Bool
  | runReturned _ => true
  | _ => false

/-- The event enters `join`. -/
def isJoin : Event → Bool
  | join _ => true
  | _ => false

/-- The event is a `return` statement. -/
def isRet : Event → Bool
  | ret _ => true
  | _ => false

end Event

/-- Every `a` event of the trace comes strictly before every `b` event: at a
`b` event, neither it nor anything after it is an `a` event. -/
def Before (a b : Event → Bool) (t : List Event) : Prop :=
  ∀ pre e post, t = pre ++ e :: post → b e = true →
    a e = false ∧ ∀ x ∈ post, a x = false

/-- Whether the calling thread holds the rendering context of the window after
the calls of `t`. In SFML a window is created with its context active on the
creating thread, drawing on it (here `clear`) activates it, and `setActive(b)`
sets it. -/
def holdsContext (t : List Event) : Bool :=
  t.foldl (fun held e =>
    match e with
    | Event.RenderWindow _ _ _ _ _ _ _ => true
    | Event.clear _ _ => true
    | Event.setActive _ b => b
    | _ => held) false

/-- The state of the object `app` after the calls of `t`. -/
def appAfter (t : List Event) : App :=
  t.foldl (fun a e =>
    match e with
    | Event.App _ => App.construct
    | Event.setWindow _ p => a.setWindow p
    | _ => a) App.construct

/-- The check of a property of all splits `pre ++ e :: post` of a trace. -/
def checkSplits (P : List Event → Event → List Event → Bool) :
    List Event → List Event → Bool
  | _, [] => true
  | acc, e :: post => P acc e post && checkSplits P (acc ++ [e]) post

/-- The constants of the end-to-end scenario: 800, 600, 1.0, 1.0. -/
def scenario : Constants := ⟨800, 600, Double.one, Double.one⟩

/-- A run in which the surface is created and both loops return. -/
def Env.normal : Env := ⟨true, true, true⟩

/-- The execution of `main` once both conversions are defined, in closed form
(see `main_eq`). -/
def mainWith (pf : Platform) (sf : Style) (env : Env) (width height : Nat) : Execution :=
  let head : List Event :=
    match pf with
    | Platform.linux => [Event.XInitThreads]
    | Platform.other => []
  let body : List Event :=
    [Event.ContextSettings Local.settings,
     Event.antialiasingLevel Local.settings 10,
     Event.RenderWindow Local.window width height TITLE (sf.Titlebar ||| sf.Close)
       Local.settings env.windowCreated,
     Event.clear Local.window Color.Cyan,
     Event.setFramerateLimit Local.window 120,
     Event.setActive Local.window false,
     Event.App Local.app,
     Event.setWindow Local.app (some Local.window.addr),
     Event.thread Local.rendering_thread Member.display Local.app.addr,
     Event.run Local.app]
  match env.runReturns, env.displayReturns with
  | false, _ => ⟨head ++ body, none⟩
  | true, false =>
    ⟨head ++ body ++ [Event.runReturned Local.app, Event.join Local.rendering_thread], none⟩
  | true, true =>
    ⟨head ++ body ++ [Event.runReturned Local.app, Event.join Local.rendering_thread,
      Event.joined Local.rendering_thread, Event.ret 0], some 0⟩

/-! ## Lemmas -/

theorem main_eq (pf : Platform) (k : Constants) (sf : Style) (env : Env) :
    main pf k sf env =
      (width k).bind fun w => (height k).bind fun h => some (mainWith pf sf env w h) := by
  obtain ⟨c, r, d⟩ := env
  unfold main width height widthProduct heightProduct
  cases (Double.mul (Double.ofInt k.DEFAULT_WIDTH) k.DEFAULT_RESX).toUnsigned with
  | none => rfl
  | some w =>
    cases (Double.mul (Double.ofInt k.DEFAULT_HEIGHT) k.DEFAULT_RESY).toUnsigned with
    | none => rfl
    | some h => cases pf <;> cases r <;> cases d <;> rfl

theorem main_some {pf : Platform} {k : Constants} {sf : Style} {env : Env} {ex : Execution}
    (h : main pf k sf env = some ex) :
    ∃ w h, width k = some w ∧ height k = some h ∧ ex = mainWith pf sf env w h := by
  rw [main_eq] at h
  cases hw : width k with
  | none => simp [hw] at h
  | some w =>
    cases hh : height k with
    | none => simp [hw, hh] at h
    | some h' => exact ⟨w, h', rfl, rfl, by simpa [hw, hh] using h.symm⟩

theorem checkSplits_sound (P : List Event → Event → List Event → Bool) :
    ∀ (t acc : List Event), checkSplits P acc t = true →
      ∀ pre e post, t = pre ++ e :: post → P (acc ++ pre) e post = true := by
  intro t
  induction t with
  | nil => intro acc _ pre e post h; simp at h
  | cons x xs ih =>
    intro acc hc pre e post h
    simp only [checkSplits, Bool.and_eq_true] at hc
    cases pre with
    | nil =>
      simp only [List.nil_append, List.cons.injEq] at h
      obtain ⟨rfl, rfl⟩ := h
      simpa using hc.1
    | cons y ys =>
      simp only [List.cons_append, List.cons.injEq] at h
      obtain ⟨rfl, rfl⟩ := h
      have := ih (acc ++ [x]) hc.2 ys e post rfl
      simpa using this

theorem before_of_check (a b : Event → Bool) (t : List Event)
    (h : checkSplits (fun _ e post => !(b e) || (!(a e) && post.all (fun x => !(a x)))) [] t
      = true) : Before a b t := by
  intro pre e post ht hb
  have := checkSplits_sound _ t [] h pre e post ht
  simp only [hb, Bool.not_true, Bool.false_or, Bool.and_eq_true, Bool.not_eq_true',
    List.all_eq_true] at this
  exact ⟨this.1, fun x hx => by simpa using this.2 x hx⟩

theorem all_eq_of_check (a : Event → Bool) (x : Event) (t : List Event)
    (h : t.all (fun e => !(a e) || decide (e = x)) = true) :
    ∀ e ∈ t, a e = true → e = x := by
  intro e he hae
  have := List.all_eq_true.mp h e he
  simpa [hae] using this

theorem holds_of_check (P : List Event → Event → List Event → Bool) (t : List Event)
    (h : checkSplits P [] t = true) :
    ∀ pre e post, t = pre ++ e :: post → P pre e post = true := by
  intro pre e post ht
  simpa using checkSplits_sound P t [] h pre e post ht

theorem loops_of_window (a : App) (w : Addr) (h : a._window = some w) :
    a.run = Access.surface w ∧ a.display = Access.surface w := by
  simp [App.run, App.display, h]

theorem or_and_left_flag (a b : Nat) : (a ||| b) &&& a = a := by
  apply Nat.eq_of_testBit_eq
  intro i
  rw [Nat.testBit_and, Nat.testBit_or]
  cases a.testBit i <;> cases b.testBit i <;> rfl

theorem or_and_right_flag (a b : Nat) : (a ||| b) &&& b = b := by
  apply Nat.eq_of_testBit_eq
  intro i
  rw [Nat.testBit_and, Nat.testBit_or]
  cases a.testBit i <;> cases b.testBit i <;> rfl

theorem two_pow_or_and_other (t c r : Nat) (h₁ : t ≠ r) (h₂ : c ≠ r) :
    (2 ^ t ||| 2 ^ c) &&& 2 ^ r = 0 := by
  apply Nat.eq_of_testBit_eq
  intro i
  rw [Nat.testBit_and, Nat.testBit_or, Nat.testBit_two_pow, Nat.testBit_two_pow,
    Nat.testBit_two_pow, Nat.zero_testBit]
  by_cases hr : r = i
  · subst hr; simp [h₁, h₂]
  · simp [hr]

namespace Double

theorem bitLength_go_zero (fuel : Nat) : bitLength.go fuel 0 = 0 := by
  cases fuel <;> simp [bitLength.go]

theorem bitLength_go_spec : ∀ (fuel n : Nat), n ≤ fuel →
    n < 2 ^ bitLength.go fuel n ∧ (n ≠ 0 → 2 ^ (bitLength.go fuel n - 1) ≤ n) := by
  intro fuel
  induction fuel with
  | zero =>
    intro n hn
    have : n = 0 := by omega
    subst this
    simp [bitLength.go]
  | succ fuel ih =>
    intro n hn
    by_cases h0 : n = 0
    · subst h0; simp [bitLength.go]
    · have hle : n / 2 ≤ fuel := by omega
      obtain ⟨h1, h2⟩ := ih (n / 2) hle
      simp only [bitLength.go, h0, if_false, Nat.add_sub_cancel]
      refine ⟨?_, fun _ => ?_⟩
      · rw [Nat.pow_succ]; omega
      · by_cases h3 : n / 2 = 0
        · rw [h3, bitLength_go_zero]; simp; omega
        · have h4 := h2 h3
          have h5 : bitLength.go fuel (n / 2) ≠ 0 := by
            intro h6
            rw [h6] at h1
            simp at h1
            exact h3 h1
          have h6 : 2 ^ bitLength.go fuel (n / 2)
              = 2 * 2 ^ (bitLength.go fuel (n / 2) - 1) := by
            rw [← Nat.pow_succ']
            congr 1
            omega
          rw [h6]; omega

theorem lt_two_pow_bitLength (n : Nat) : n < 2 ^ bitLength n :=
  (bitLength_go_spec n n (Nat.le_refl n)).1

theorem two_pow_le_of_bitLength (n : Nat) (h : n ≠ 0) : 2 ^ (bitLength n - 1) ≤ n :=
  (bitLength_go_spec n n (Nat.le_refl n)).2 h

theorem bitLength_le_of_lt (n j : Nat) (h : n < 2 ^ j) : bitLength n ≤ j := by
  by_cases h0 : n = 0
  · subst h0; simp [bitLength, bitLength_go_zero]
  · have h1 := two_pow_le_of_bitLength n h0
    have h2 : 2 ^ (bitLength n - 1) < 2 ^ j := lt_of_le_of_lt h1 h
    have h3 := (Nat.pow_lt_pow_iff_right (by decide : 1 < 2)).mp h2
    omega

theorem roundShift_of_dvd (q s : Nat) : roundShift (q * 2 ^ s) s = q := by
  have hpos : 0 < 2 ^ s := Nat.pow_pos (by decide)
  simp [roundShift, Nat.mul_div_cancel _ hpos, hpos]

theorem round_of_short (b : Bool) (M : Nat) (e : Int) (he : -1074 ≤ e)
    (hL : bitLength M ≤ 53) (hov : (bitLength M : Int) + e ≤ 1024) :
    round b M e = finite b M e := by
  have hs : max (bitLength M - 53) (-1074 - e).toNat = 0 := by
    have h1 : bitLength M - 53 = 0 := by omega
    have h2 : (-1074 - e).toNat = 0 := by omega
    rw [h1, h2]; rfl
  have hr : roundShift M 0 = M := by simpa using roundShift_of_dvd M 0
  have hlt : M < 2 ^ 53 :=
    lt_of_lt_of_le (lt_two_pow_bitLength M) (Nat.pow_le_pow_right (by decide) hL)
  unfold round
  simp only [hs, hr]
  rw [if_neg (by push_cast; omega), if_neg (by omega)]
  simp

theorem round_of_shift (b : Bool) (q s : Nat) (e : Int) (he : -1074 ≤ e)
    (hL : bitLength (q * 2 ^ s) = 53 + s) (hov : e + s ≤ 0) :
    round b (q * 2 ^ s) e = finite b q (e + s) := by
  have hs : max (bitLength (q * 2 ^ s) - 53) (-1074 - e).toNat = s := by
    have h2 : (-1074 - e).toNat = 0 := by omega
    rw [hL, h2]; simp
  have hq : q < 2 ^ 53 := by
    have h1 := lt_two_pow_bitLength (q * 2 ^ s)
    rw [hL, Nat.pow_add] at h1
    exact Nat.lt_of_mul_lt_mul_right h1
  have hb : bitLength q ≤ 53 := bitLength_le_of_lt q 53 hq
  unfold round
  simp only [hs, roundShift_of_dvd]
  rw [if_neg (by omega), if_neg (by omega)]

theorem round_exact (b : Bool) (M : Nat) (e : Int) (n : Nat)
    (he₁ : -1074 ≤ e) (he₂ : e ≤ 1024)
    (hv : (M : ℚ) * (2 : ℚ) ^ e = n) (hn : n < 2 ^ 32) :
    ∃ m' e', round b M e = finite b m' e' ∧ (m' : ℚ) * (2 : ℚ) ^ e' = n := by
  by_cases hM : M = 0
  · subst hM
    refine ⟨0, e, round_of_short b 0 e he₁ ?_ ?_, hv⟩
    · simp [bitLength, bitLength_go_zero]
    · simp [bitLength, bitLength_go_zero]; omega
  by_cases he : 0 ≤ e
  · obtain ⟨j, rfl⟩ := Int.eq_ofNat_of_zero_le he
    have hnat : M * 2 ^ j = n := by
      rw [zpow_natCast] at hv
      exact_mod_cast hv
    have hpos : 0 < 2 ^ j := Nat.pow_pos (by decide)
    have hMn : M ≤ n := by
      rw [← hnat]; exact Nat.le_mul_of_pos_right M hpos
    have hL : bitLength M ≤ 32 := bitLength_le_of_lt M 32 (lt_of_le_of_lt hMn hn)
    have hjn : 2 ^ j ≤ n := by
      rw [← hnat]; exact Nat.le_mul_of_pos_left _ (Nat.pos_of_ne_zero hM)
    have hj : j < 32 :=
      (Nat.pow_lt_pow_iff_right (by decide : 1 < 2)).mp (lt_of_le_of_lt hjn hn)
    refine ⟨M, (j : Int), round_of_short b M j he₁ (by omega) (by omega), hv⟩
  · obtain ⟨K, hK⟩ := Int.eq_ofNat_of_zero_le (show 0 ≤ -e by omega)
    have heK : e = -(K : Int) := by omega
    have hpos : (0 : ℚ) < 2 ^ K := by positivity
    have hnat : M = n * 2 ^ K := by
      rw [heK, zpow_neg, zpow_natCast] at hv
      have : (M : ℚ) = (n : ℚ) * 2 ^ K := by
        field_simp at hv
        exact hv
      exact_mod_cast this
    have hLK : bitLength M ≤ 32 + K := by
      apply bitLength_le_of_lt
      rw [hnat, Nat.pow_add]
      exact Nat.mul_lt_mul_of_pos_right hn (Nat.pow_pos (by decide))
    by_cases hL : bitLength M ≤ 53
    · exact ⟨M, e, round_of_short b M e he₁ hL (by omega), hv⟩
    · obtain ⟨s, hs⟩ : ∃ s, bitLength M = 53 + s := ⟨bitLength M - 53, by omega⟩
      have hsK : s ≤ K := by omega
      have hsplit : M = (n * 2 ^ (K - s)) * 2 ^ s := by
        rw [hnat, Nat.mul_assoc, ← Nat.pow_add]
        congr 2
        omega
      refine ⟨n * 2 ^ (K - s), e + s, ?_, ?_⟩
      · have := round_of_shift b (n * 2 ^ (K - s)) s e he₁ (by rw [← hsplit]; exact hs)
          (by omega)
        rw [← hsplit] at this
        exact this
      · have hes : e + (s : Int) = -((K - s : ℕ) : Int) := by omega
        rw [hes, zpow_neg, zpow_natCast]
        push_cast
        field_simp

theorem roundShift_zero (s : Nat) : roundShift 0 s = 0 := by
  have : 0 < 2 ^ s := Nat.pow_pos (by decide)
  simp [roundShift, this]

theorem round_isNonneg (neg : Bool) (M : Nat) (E : Int) (h : neg = false ∨ M = 0)
    (p : ℚ) (hp : (round neg M E).toRat = some p) : (round neg M E).IsNonneg := by
  rcases h with h | h
  · subst h
    unfold round at hp ⊢
    simp only at hp ⊢
    split_ifs at hp ⊢
    · simp [toRat] at hp
    · simp [IsNonneg]
    · simp [IsNonneg]
  · subst h
    unfold round at hp ⊢
    simp only [roundShift_zero] at hp ⊢
    split_ifs at hp ⊢
    · simp [toRat] at hp
    · rename_i h2; exact absurd h2 (by decide)
    · simp [IsNonneg]

theorem mul_ofInt_isNonneg (i : Int) (d : Double) (hi : 0 ≤ i) (hd : d.IsNonneg)
    (p : ℚ) (hp : (mul (ofInt i) d).toRat = some p) : (mul (ofInt i) d).IsNonneg := by
  cases d with
  | nan => simp [IsNonneg] at hd
  | inf b => simp [IsNonneg] at hd
  | finite b m e =>
    have hneg : decide (i < 0) = false := by simpa using hi
    simp only [ofInt, mul, hneg, Bool.false_xor] at hp ⊢
    refine round_isNonneg b _ _ ?_ p hp
    rcases hd with hb | hm
    · exact Or.inl hb
    · exact Or.inr (by simp [hm])

theorem toUnsigned_eq_floor (d : Double) (hd : d.IsNonneg) (p : ℚ)
    (hp : d.toRat = some p) (hlt : p < 2 ^ 32) : d.toUnsigned = some ⌊p⌋₊ := by
  cases d with
  | nan => simp [IsNonneg] at hd
  | inf b => simp [IsNonneg] at hd
  | finite b m e =>
    simp only [toRat, Option.some.injEq] at hp
    have hp' : p = (m : ℚ) * (2 : ℚ) ^ e := by
      rcases hd with hb | hm
      · subst hb; simpa using hp.symm
      · subst hm; simpa using hp.symm
    have key : ∀ t : Nat, ⌊p⌋₊ = t → (b = false ∨ t = 0) → (t : ℚ) ≤ p →
        (if b = true ∧ t ≠ 0 then none else if t < 2 ^ 32 then some t else none)
          = some ⌊p⌋₊ := by
      intro t ht hbt hle
      have h1 : ¬ (b = true ∧ t ≠ 0) := by
        rcases hbt with h | h
        · simp [h]
        · simp [h]
      have h2 : t < 2 ^ 32 := by
        have : (t : ℚ) < ((2 ^ 32 : ℕ) : ℚ) := by
          push_cast
          exact lt_of_le_of_lt hle hlt
        exact_mod_cast this
      rw [if_neg h1, if_pos h2, ht]
    unfold toUnsigned
    simp only
    by_cases he : 0 ≤ e
    · obtain ⟨n, rfl⟩ := Int.eq_ofNat_of_zero_le he
      have hv : p = ((m * 2 ^ n : ℕ) : ℚ) := by
        rw [hp']; push_cast; simp
      simp only [he, if_true, Int.toNat_ofNat]
      refine key _ (by rw [hv, Nat.floor_natCast]) ?_ (le_of_eq hv.symm)
      rcases hd with hb | hm
      · exact Or.inl hb
      · exact Or.inr (by simp [hm])
    · have hneg : e < 0 := lt_of_not_ge he
      obtain ⟨n, hn⟩ := Int.eq_ofNat_of_zero_le (show 0 ≤ -e by omega)
      have he' : e = -(n : Int) := by omega
      have hv : p = (m : ℚ) / ((2 ^ n : ℕ) : ℚ) := by
        rw [hp', he', zpow_neg, zpow_natCast]; push_cast; rw [div_eq_mul_inv]
      simp only [he, if_false, hn, Int.toNat_ofNat]
      refine key _ (by rw [hv, Nat.floor_div_eq_div]) ?_ ?_
      · rcases hd with hb | hm
        · exact Or.inl hb
        · exact Or.inr (by simp [hm])
      · rw [hv]; exact Nat.cast_div_le

theorem mul_ofInt_exact (i : Int) (d : Double) (hi : 0 ≤ i) (hd : d.IsNonneg)
    (hwf : d.WellFormed) (x : ℚ) (hx : d.toRat = some x) (n : ℕ)
    (hprod : (i : ℚ) * x = n) (hn : n < 2 ^ 32) :
    (mul (ofInt i) d).toRat = some (n : ℚ) := by
  cases d with
  | nan => simp [IsNonneg] at hd
  | inf b => simp [IsNonneg] at hd
  | finite b m e =>
    obtain ⟨-, he₁, he₃⟩ := hwf
    have he₂ : e ≤ 1024 := by
      have : (0 : Int) ≤ (bitLength m : Int) := Int.natCast_nonneg _
      omega
    simp only [toRat, Option.some.injEq] at hx
    have hx' : x = (m : ℚ) * (2 : ℚ) ^ e := by
      rcases hd with hb | hm
      · subst hb; simpa using hx.symm
      · subst hm; simpa using hx.symm
    have hneg : decide (i < 0) = false := by simpa using hi
    have hcast : (i : ℚ) = ((i.natAbs : ℕ) : ℚ) := by
      obtain ⟨a, rfl⟩ := Int.eq_ofNat_of_zero_le hi
      simp
    have hv : ((i.natAbs * m : ℕ) : ℚ) * (2 : ℚ) ^ e = n := by
      rw [← hprod, hx', hcast]; push_cast; ring
    obtain ⟨m', e', hr, hval⟩ := round_exact b (i.natAbs * m) e n he₁ he₂ hv hn
    simp only [ofInt, mul, hneg, Bool.false_xor, zero_add, hr, toRat, Option.some.injEq]
    rcases hd with hb | hm
    · subst hb; simpa using hval
    · subst hm
      have hn0 : (n : ℚ) = 0 := by simpa using hv.symm
      rw [mul_assoc, hval, hn0]; simp

end Double

/-! ## Properties of `main` and `App` -/

/-- C1: for non-negative `DEFAULT_WIDTH`, `DEFAULT_HEIGHT` and non-negative
multipliers `DEFAULT_RESX`, `DEFAULT_RESY` whose double products `p`, `q` are
below `2^32`, the width and height that `main` passes to the video mode are
`floor p` and `floor q`; they are the products themselves when these are
integers, and also when the exact products of the constants are integers below
`2^32`; and `main` constructs its window with exactly these dimensions. -/
theorem videoMode_dimensions (k : Constants)
    (hW : 0 ≤ k.DEFAULT_WIDTH) (hH : 0 ≤ k.DEFAULT_HEIGHT)
    (hX : k.DEFAULT_RESX.IsNonneg) (hY : k.DEFAULT_RESY.IsNonneg)
    (p q : ℚ) (hp : (widthProduct k).toRat = some p) (hq : (heightProduct k).toRat = some q)
    (hpb : p < 2 ^ 32) (hqb : q < 2 ^ 32) :
    width k = some ⌊p⌋₊ ∧ height k = some ⌊q⌋₊ ∧
    (∀ n : ℕ, p = n → width k = some n) ∧ (∀ n : ℕ, q = n → height k = some n) ∧
    (∀ (x : ℚ) (n : ℕ), k.DEFAULT_RESX.WellFormed → k.DEFAULT_RESX.toRat = some x →
      (k.DEFAULT_WIDTH : ℚ) * x = n → n < 2 ^ 32 → width k = some n) ∧
    (∀ (y : ℚ) (n : ℕ), k.DEFAULT_RESY.WellFormed → k.DEFAULT_RESY.toRat = some y →
      (k.DEFAULT_HEIGHT : ℚ) * y = n → n < 2 ^ 32 → height k = some n) ∧
    ∀ pf sf env, ∃ ex, main pf k sf env = some ex ∧
      Event.RenderWindow Local.window ⌊p⌋₊ ⌊q⌋₊ TITLE (sf.Titlebar ||| sf.Close)
        Local.settings env.windowCreated ∈ ex.trace ∧
      ∀ e ∈ ex.trace, e.isRenderWindow = true →
        e = Event.RenderWindow Local.window ⌊p⌋₊ ⌊q⌋₊ TITLE (sf.Titlebar ||| sf.Close)
          Local.settings env.windowCreated := by
  have hw : width k = some ⌊p⌋₊ :=
    Double.toUnsigned_eq_floor _ (Double.mul_ofInt_isNonneg _ _ hW hX p hp) p hp hpb
  have hh : height k = some ⌊q⌋₊ :=
    Double.toUnsigned_eq_floor _ (Double.mul_ofInt_isNonneg _ _ hH hY q hq) q hq hqb
  have hlt : ∀ n : ℕ, n < 2 ^ 32 → (n : ℚ) < 2 ^ 32 := fun n hn => by exact_mod_cast hn
  refine ⟨hw, hh, ?_, ?_, ?_, ?_, ?_⟩
  · intro n hn; rw [hw, hn, Nat.floor_natCast]
  · intro n hn; rw [hh, hn, Nat.floor_natCast]
  · intro x n hwf hx hprod hn
    have hexact := Double.mul_ofInt_exact _ _ hW hX hwf x hx n hprod hn
    have := Double.toUnsigned_eq_floor _
      (Double.mul_ofInt_isNonneg _ _ hW hX n hexact) n hexact (hlt n hn)
    rw [Nat.floor_natCast] at this
    exact this
  · intro y n hwf hy hprod hn
    have hexact := Double.mul_ofInt_exact _ _ hH hY hwf y hy n hprod hn
    have := Double.toUnsigned_eq_floor _
      (Double.mul_ofInt_isNonneg _ _ hH hY n hexact) n hexact (hlt n hn)
    rw [Nat.floor_natCast] at this
    exact this
  · intro pf sf env
    refine ⟨mainWith pf sf env ⌊p⌋₊ ⌊q⌋₊, ?_, ?_, ?_⟩
    · rw [main_eq, hw, hh]; rfl
    · obtain ⟨c, r, d⟩ := env
      cases pf <;> cases r <;> cases d <;> simp [mainWith]
    · obtain ⟨c, r, d⟩ := env
      intro e he
      cases pf <;> cases r <;> cases d <;>
        simp only [mainWith, List.cons_append, List.nil_append, List.mem_cons,
          List.mem_singleton, List.not_mem_nil, or_false] at he <;>
        rcases he with rfl | rfl | rfl | rfl | rfl | rfl | rfl | rfl | rfl | rfl | rfl | rfl |
          rfl | rfl | rfl <;>
        simp [Event.isRenderWindow]

/-- The end-to-end scenario 800, 600, 1.0, 1.0 gives an 800 by 600 video mode. -/
theorem videoMode_dimensions_witness :
    width scenario = some 800 ∧ height scenario = some 600 :=
  have hp : (widthProduct scenario).toRat = some 800 := by
    have : widthProduct scenario = Double.finite false 800 0 := by decide
    rw [this]; norm_num [Double.toRat]
  have hq : (heightProduct scenario).toRat = some 600 := by
    have : heightProduct scenario = Double.finite false 600 0 := by decide
    rw [this]; norm_num [Double.toRat]
  have h := videoMode_dimensions scenario (by decide) (by decide) (Or.inl rfl) (Or.inl rfl)
    800 600 hp hq (by norm_num) (by norm_num)
  ⟨h.2.2.1 800 (by norm_num), h.2.2.2.1 600 (by norm_num)⟩

/-- The product in C1 is the rounded double product: with `DEFAULT_WIDTH = 3`
and `DEFAULT_RESX` the double nearest to one third, the exact product lies
below 1 and the double product is 1.0, so the width is 1. -/
theorem width_three_thirds :
    Double.third.WellFormed ∧
    widthProduct ⟨3, 3, Double.third, Double.third⟩ = Double.finite false (2 ^ 52) (-52) ∧
    width ⟨3, 3, Double.third, Double.third⟩ = some 1 ∧
    3 * 6004799503160661 < 2 ^ 54 := by
  decide

/-- C5: in every execution of `main`, `XInitThreads` is called at most once; on
Linux it is called exactly once, it is the first call of all, and so it comes
before the construction of the context settings, of the window and of every
other object; on other platforms it is not called. -/
theorem xInitThreads_once_and_first (pf : Platform) (k : Constants) (sf : Style) (env : Env)
    (ex : Execution) (h : main pf k sf env = some ex) :
    ex.trace.countP Event.isXInitThreads ≤ 1 ∧
    (pf = Platform.linux →
      ex.trace.countP Event.isXInitThreads = 1 ∧
      ex.trace.head? = some Event.XInitThreads ∧
      Before Event.isXInitThreads Event.isGraphicsObject ex.trace ∧
      Before Event.isXInitThreads (fun e => !e.isXInitThreads) ex.trace) ∧
    (pf = Platform.other → ex.trace.countP Event.isXInitThreads = 0) := by
  obtain ⟨w, h', -, -, rfl⟩ := main_some h
  obtain ⟨c, r, d⟩ := env
  cases pf <;> cases r <;> cases d <;>
    refine ⟨?_, fun hp => ?_, fun hp => ?_⟩ <;>
    first
      | exact Nat.le_refl _
      | exact Nat.zero_le _
      | exact ⟨rfl, rfl, before_of_check _ _ _ rfl, before_of_check _ _ _ rfl⟩
      | rfl
      | cases hp

/-- On Linux, in the end-to-end scenario, `XInitThreads` is called once. -/
theorem xInitThreads_once_and_first_witness :
    main Platform.linux scenario Style.sfml Env.normal
        = some (mainWith Platform.linux Style.sfml Env.normal 800 600) ∧
      (mainWith Platform.linux Style.sfml Env.normal 800 600).trace.countP
        Event.isXInitThreads = 1 :=
  ⟨by decide,
   ((xInitThreads_once_and_first Platform.linux scenario Style.sfml Env.normal _
      (by decide)).2.1 rfl).1⟩

/-- C8: in every execution of `main` the window is cleared exactly once, to
`Cyan`, and its frame rate is capped exactly once, at 120; exactly one thread
is started, and both calls come before it. -/
theorem clear_and_cap_before_thread (pf : Platform) (k : Constants) (sf : Style) (env : Env)
    (ex : Execution) (h : main pf k sf env = some ex) :
    ex.trace.countP Event.isClear = 1 ∧
    (∀ e ∈ ex.trace, e.isClear = true → e = Event.clear Local.window Color.Cyan) ∧
    ex.trace.countP Event.isSetFramerateLimit = 1 ∧
    (∀ e ∈ ex.trace, e.isSetFramerateLimit = true →
      e = Event.setFramerateLimit Local.window 120) ∧
    ex.trace.countP Event.isThread = 1 ∧
    Before Event.isClear Event.isThread ex.trace ∧
    Before Event.isSetFramerateLimit Event.isThread ex.trace := by
  obtain ⟨w, h', -, -, rfl⟩ := main_some h
  obtain ⟨c, r, d⟩ := env
  cases pf <;> cases r <;> cases d <;>
    exact ⟨rfl, all_eq_of_check _ _ _ rfl, rfl, all_eq_of_check _ _ _ rfl, rfl,
      before_of_check _ _ _ rfl, before_of_check _ _ _ rfl⟩

/-- In the end-to-end scenario the clear comes before the start of the thread. -/
theorem clear_and_cap_before_thread_witness :
    main Platform.linux scenario Style.sfml Env.normal
        = some (mainWith Platform.linux Style.sfml Env.normal 800 600) ∧
      Before Event.isClear Event.isThread
        (mainWith Platform.linux Style.sfml Env.normal 800 600).trace :=
  ⟨by decide,
   (clear_and_cap_before_thread Platform.linux scenario Style.sfml Env.normal _
      (by decide)).2.2.2.2.2.1⟩

/-- C10: in every execution of `main` there is exactly one call of `setActive`,
it is `window.setActive(false)`, it comes after the window is constructed,
cleared and capped and before `setWindow` and the start of the thread; and at
the start of the thread the main thread does not hold the context of the
window. -/
theorem setActive_false_before_handoff (pf : Platform) (k : Constants) (sf : Style)
    (env : Env) (ex : Execution) (h : main pf k sf env = some ex) :
    ex.trace.countP Event.isSetActive = 1 ∧
    (∀ e ∈ ex.trace, e.isSetActive = true → e = Event.setActive Local.window false) ∧
    ex.trace.countP Event.isRenderWindow = 1 ∧
    ex.trace.countP Event.isClear = 1 ∧
    ex.trace.countP Event.isSetFramerateLimit = 1 ∧
    ex.trace.countP Event.isSetWindow = 1 ∧
    ex.trace.countP Event.isThread = 1 ∧
    Before Event.isRenderWindow Event.isSetActive ex.trace ∧
    Before Event.isClear Event.isSetActive ex.trace ∧
    Before Event.isSetFramerateLimit Event.isSetActive ex.trace ∧
    Before Event.isSetActive Event.isSetWindow ex.trace ∧
    Before Event.isSetActive Event.isThread ex.trace ∧
    (∀ pre e post, ex.trace = pre ++ e :: post → e.isThread = true →
      holdsContext pre = false) := by
  obtain ⟨w, h', -, -, rfl⟩ := main_some h
  obtain ⟨c, r, d⟩ := env
  cases pf <;> cases r <;> cases d <;>
    refine ⟨rfl, all_eq_of_check _ _ _ rfl, rfl, rfl, rfl, rfl, rfl,
      before_of_check _ _ _ rfl, before_of_check _ _ _ rfl, before_of_check _ _ _ rfl,
      before_of_check _ _ _ rfl, before_of_check _ _ _ rfl, ?_⟩ <;>
    intro pre e post ht he <;>
    have := holds_of_check (fun pre e _ => !(e.isThread) || !(holdsContext pre)) _ (by rfl)
      pre e post ht <;>
    simpa [he] using this

/-- In the end-to-end scenario `setActive` comes before the start of the thread. -/
theorem setActive_false_before_handoff_witness :
    main Platform.linux scenario Style.sfml Env.normal
        = some (mainWith Platform.linux Style.sfml Env.normal 800 600) ∧
      Before Event.isSetActive Event.isThread
        (mainWith Platform.linux Style.sfml Env.normal 800 600).trace :=
  ⟨by decide,
   (setActive_false_before_handoff Platform.linux scenario Style.sfml Env.normal _
      (by decide)).2.2.2.2.2.2.2.2.2.2.2.1⟩

/-- C4: `main` returns no exit code other than 0, and in every execution of
`main` that terminates exactly one thread is created, it runs `App::display`
on the object `app`; `run` is called once, on `app`, after the thread is
started; `join` is called exactly once, on that thread, after `run` has
returned; and the last step is `return 0`. -/
theorem thread_run_join_return (pf : Platform) (k : Constants) (sf : Style) (env : Env)
    (ex : Execution) (h : main pf k sf env = some ex) :
    (ex.exit = none ∨ ex.exit = some 0) ∧
    (∀ e ∈ ex.trace, e.isRet = true → e = Event.ret 0) ∧
    (∀ code, ex.exit = some code →
      code = 0 ∧
      ex.trace.countP Event.isThread = 1 ∧
      (∀ e ∈ ex.trace, e.isThread = true →
        e = Event.thread Local.rendering_thread Member.display Local.app.addr) ∧
      ex.trace.countP Event.isRun = 1 ∧
      (∀ e ∈ ex.trace, e.isRun = true → e = Event.run Local.app) ∧
      Before Event.isThread Event.isRun ex.trace ∧
      ex.trace.countP Event.isRunReturned = 1 ∧
      ex.trace.countP Event.isJoin = 1 ∧
      (∀ e ∈ ex.trace, e.isJoin = true → e = Event.join Local.rendering_thread) ∧
      Before Event.isRunReturned Event.isJoin ex.trace ∧
      ex.trace.countP Event.isRet = 1 ∧
      Before Event.isJoin Event.isRet ex.trace ∧
      ex.trace.getLast? = some (Event.ret 0)) := by
  obtain ⟨w, h', -, -, rfl⟩ := main_some h
  obtain ⟨c, r, d⟩ := env
  cases pf <;> cases r <;> cases d <;>
    refine ⟨by first | exact Or.inl rfl | exact Or.inr rfl, all_eq_of_check _ _ _ rfl,
      fun code hc => ?_⟩ <;>
    first
      | exact Option.noConfusion (show (none : Option Int) = some code from hc)
      | exact ⟨(Option.some.inj hc).symm, rfl, all_eq_of_check _ _ _ rfl, rfl,
          all_eq_of_check _ _ _ rfl, before_of_check _ _ _ rfl, rfl, rfl,
          all_eq_of_check _ _ _ rfl, before_of_check _ _ _ rfl, rfl,
          before_of_check _ _ _ rfl, rfl⟩

/-- In the end-to-end scenario `main` returns 0 after one `join`. -/
theorem thread_run_join_return_witness :
    main Platform.linux scenario Style.sfml Env.normal
        = some (mainWith Platform.linux Style.sfml Env.normal 800 600) ∧
      (mainWith Platform.linux Style.sfml Env.normal 800 600).exit = some 0 ∧
      (mainWith Platform.linux Style.sfml Env.normal 800 600).trace.countP Event.isJoin = 1 :=
  ⟨by decide, rfl,
   ((thread_run_join_return Platform.linux scenario Style.sfml Env.normal _
      (by decide)).2.2 0 rfl).2.2.2.2.2.2.2.1⟩

/-- C3: after `setWindow(w)` both `run` and `display` operate on the surface at
the address `w`; and in every execution of `main` one window is constructed,
`setWindow` is called once, on `app`, with the address of that window, the
thread is given `App::display` with the address of `app`, `run` is called on
`app`, and from the start of the thread on both loops of `app` operate on
`window`. -/
theorem loops_share_the_window :
    (∀ (a : App) (w : Addr),
      (a.setWindow (some w)).run = Access.surface w ∧
      (a.setWindow (some w)).display = Access.surface w) ∧
    ∀ (pf : Platform) (k : Constants) (sf : Style) (env : Env) (ex : Execution),
      main pf k sf env = some ex →
      ex.trace.countP Event.isRenderWindow = 1 ∧
      ex.trace.countP Event.isSetWindow = 1 ∧
      (∀ e ∈ ex.trace, e.isSetWindow = true →
        e = Event.setWindow Local.app (some Local.window.addr)) ∧
      (∀ e ∈ ex.trace, e.isThread = true →
        e = Event.thread Local.rendering_thread Member.display Local.app.addr) ∧
      (∀ e ∈ ex.trace, e.isRun = true → e = Event.run Local.app) ∧
      (∀ pre e post, ex.trace = pre ++ e :: post →
        (e.isThread = true ∨ pre.any Event.isThread = true) →
        (appAfter pre).run = Access.surface Local.window.addr ∧
        (appAfter pre).display = Access.surface Local.window.addr ∧
        (appAfter (pre ++ [e])).run = Access.surface Local.window.addr ∧
        (appAfter (pre ++ [e])).display = Access.surface Local.window.addr) := by
  refine ⟨fun a w => ⟨rfl, rfl⟩, ?_⟩
  intro pf k sf env ex h
  obtain ⟨w, h', -, -, rfl⟩ := main_some h
  obtain ⟨c, r, d⟩ := env
  cases pf <;> cases r <;> cases d <;>
    refine ⟨rfl, rfl, all_eq_of_check _ _ _ rfl, all_eq_of_check _ _ _ rfl,
      all_eq_of_check _ _ _ rfl, ?_⟩ <;>
    (intro pre e post ht he
     have := holds_of_check
       (fun pre e _ => !(e.isThread || pre.any Event.isThread) ||
         ((appAfter pre)._window == some Local.window.addr &&
          (appAfter (pre ++ [e]))._window == some Local.window.addr))
       _ (by rfl) pre e post ht
     have he' : (e.isThread || pre.any Event.isThread) = true := by
       rcases he with he | he <;> simp [he]
     simp only [he', Bool.not_true, Bool.false_or, Bool.and_eq_true, beq_iff_eq] at this
     exact ⟨(loops_of_window _ _ this.1).1, (loops_of_window _ _ this.1).2,
       (loops_of_window _ _ this.2).1, (loops_of_window _ _ this.2).2⟩)

/-- In the end-to-end scenario `setWindow` is called once. -/
theorem loops_share_the_window_witness :
    main Platform.linux scenario Style.sfml Env.normal
        = some (mainWith Platform.linux Style.sfml Env.normal 800 600) ∧
      (mainWith Platform.linux Style.sfml Env.normal 800 600).trace.countP
        Event.isSetWindow = 1 :=
  ⟨by decide,
   (loops_share_the_window.2 Platform.linux scenario Style.sfml Env.normal _
      (by decide)).2.1⟩

/-- C9: in every execution of `main` the one window is constructed with the
title `SFML & CMAKE` and the style `Titlebar | Close`; when the four style
flags are single bits at distinct positions this style contains `Titlebar` and
`Close` and contains neither `Resize` nor `Fullscreen`. -/
theorem window_style_and_title (pf : Platform) (k : Constants) (sf : Style) (env : Env)
    (ex : Execution) (hs : sf.SingleBits) (h : main pf k sf env = some ex) :
    ex.trace.countP Event.isRenderWindow = 1 ∧
    (∀ e ∈ ex.trace, e.isRenderWindow = true →
      ∃ w h o, e = Event.RenderWindow Local.window w h TITLE (sf.Titlebar ||| sf.Close)
        Local.settings o) ∧
    TITLE = "SFML & CMAKE" ∧
    (sf.Titlebar ||| sf.Close) &&& sf.Titlebar = sf.Titlebar ∧
    (sf.Titlebar ||| sf.Close) &&& sf.Close = sf.Close ∧
    (sf.Titlebar ||| sf.Close) &&& sf.Resize = 0 ∧
    (sf.Titlebar ||| sf.Close) &&& sf.Fullscreen = 0 ∧
    sf.Titlebar ≠ 0 ∧ sf.Close ≠ 0 := by
  obtain ⟨w, h', -, -, rfl⟩ := main_some h
  obtain ⟨t, r, c, f, ht, hr, hc, hf, htr, htc, htf, hrc, hrf, hcf⟩ := hs
  refine ⟨?_, ?_, rfl, or_and_left_flag _ _, or_and_right_flag _ _, ?_, ?_, ?_, ?_⟩
  · obtain ⟨c', r', d⟩ := env
    cases pf <;> cases r' <;> cases d <;> rfl
  · obtain ⟨c', r', d⟩ := env
    intro e he
    cases pf <;> cases r' <;> cases d <;>
      simp only [mainWith, List.cons_append, List.nil_append, List.mem_cons,
        List.mem_singleton, List.not_mem_nil, or_false] at he <;>
      rcases he with rfl | rfl | rfl | rfl | rfl | rfl | rfl | rfl | rfl | rfl | rfl | rfl |
        rfl | rfl | rfl <;>
      simp [Event.isRenderWindow]
  · rw [ht, hc, hr]; exact two_pow_or_and_other t c r htr (Ne.symm hrc)
  · rw [ht, hc, hf]; exact two_pow_or_and_other t c f htf hcf
  · rw [ht]; exact Nat.pos_iff_ne_zero.mp (Nat.pow_pos (by decide))
  · rw [hc]; exact Nat.pos_iff_ne_zero.mp (Nat.pow_pos (by decide))

/-- With the SFML values of the flags the style of the window excludes `Resize`. -/
theorem window_style_and_title_witness :
    Style.sfml.SingleBits ∧
      main Platform.linux scenario Style.sfml Env.normal
        = some (mainWith Platform.linux Style.sfml Env.normal 800 600) ∧
      (Style.sfml.Titlebar ||| Style.sfml.Close) &&& Style.sfml.Resize = 0 :=
  have hs : Style.sfml.SingleBits :=
    ⟨0, 1, 2, 3, rfl, rfl, rfl, rfl, by decide, by decide, by decide, by decide, by decide,
      by decide⟩
  ⟨hs, by decide,
   (window_style_and_title Platform.linux scenario Style.sfml Env.normal
      (mainWith Platform.linux Style.sfml Env.normal 800 600) hs
      (by decide)).2.2.2.2.2.1⟩

/-- C6, as the code has it: `main` does not test whether the surface could be
created. In every execution in which creation failed, `main` still calls
`setWindow` with the address of the window, starts the thread, and calls `run`;
it returns no exit code other than 0, and returns 0 when both loops return. -/
theorem creation_failure_is_not_checked (pf : Platform) (k : Constants) (sf : Style)
    (env : Env) (ex : Execution) (h : main pf k sf env = some ex)
    (hfail : env.windowCreated = false) :
    Event.setWindow Local.app (some Local.window.addr) ∈ ex.trace ∧
    Event.thread Local.rendering_thread Member.display Local.app.addr ∈ ex.trace ∧
    Event.run Local.app ∈ ex.trace ∧
    (ex.exit = none ∨ ex.exit = some 0) ∧
    (env.runReturns = true → env.displayReturns = true → ex.exit = some 0) ∧
    (∀ w h, ex.trace.countP Event.isRenderWindow = 1 ∧
      (Event.RenderWindow Local.window w h TITLE (sf.Titlebar ||| sf.Close) Local.settings
        true ∉ ex.trace)) := by
  obtain ⟨w, h', -, -, rfl⟩ := main_some h
  obtain ⟨c, r, d⟩ := env
  simp only at hfail
  subst hfail
  cases pf <;> cases r <;> cases d <;>
    refine ⟨by simp [mainWith], by simp [mainWith], by simp [mainWith],
      by first | exact Or.inl rfl | exact Or.inr rfl, ?_, fun w₁ h₁ => ⟨rfl, ?_⟩⟩ <;>
    first
      | (intro h₁ h₂; first | rfl | exact Bool.noConfusion h₁ | exact Bool.noConfusion h₂)
      | simp [mainWith]

/-- In the end-to-end scenario with a failed creation `main` still returns 0. -/
theorem creation_failure_is_not_checked_witness :
    main Platform.linux scenario Style.sfml ⟨false, true, true⟩
        = some (mainWith Platform.linux Style.sfml ⟨false, true, true⟩ 800 600) ∧
      (mainWith Platform.linux Style.sfml ⟨false, true, true⟩ 800 600).exit = some 0 :=
  ⟨by decide,
   (creation_failure_is_not_checked Platform.linux scenario Style.sfml ⟨false, true, true⟩ _
      (by decide) rfl).2.2.2.2.1 rfl rfl⟩

/-- C6 as stated fails: with the constants 800, 600, 1.0, 1.0 on Linux, when
creation of the surface fails and both loops return, `main` hands the window
to the `App`, starts the thread, runs the control loop and returns 0. -/
theorem creation_failure_counterexample :
    ∃ ex, main Platform.linux scenario Style.sfml ⟨false, true, true⟩ = some ex ∧
      ex.exit = some 0 ∧
      ex.trace.any Event.isSetWindow = true ∧
      ex.trace.any Event.isThread = true ∧
      ex.trace.any Event.isRun = true :=
  ⟨mainWith Platform.linux Style.sfml ⟨false, true, true⟩ 800 600,
    by decide, rfl, rfl, rfl, rfl⟩

/-- C2, as the code has it: on an `App` whose surface reference is null, `run`
and `display` make no precondition check; they dereference the absent
surface, which is undefined behaviour, and raise no precondition error. -/
theorem loops_without_window_are_undefined (a : App) (h : a._window = none) :
    a.run = Access.undefinedBehaviour ∧ a.display = Access.undefinedBehaviour ∧
    a.run ≠ Access.preconditionError ∧ a.display ≠ Access.preconditionError := by
  simp [App.run, App.display, h]

/-- On a freshly constructed `App` both loops are undefined. -/
theorem loops_without_window_are_undefined_witness :
    App.construct.run = Access.undefinedBehaviour ∧
      App.construct.display = Access.undefinedBehaviour :=
  ⟨(loops_without_window_are_undefined App.construct rfl).1,
   (loops_without_window_are_undefined App.construct rfl).2.1⟩

/-- C2 as stated fails: on a freshly constructed `App`, on which `setWindow` has
not been called, neither `run` nor `display` ends in the precondition error. -/
theorem precondition_error_counterexample :
    App.construct._window = none ∧
      ¬ (App.construct.run = Access.preconditionError ∨
         App.construct.display = Access.preconditionError) := by
  decide

end Sfmlcmake
